import Mathlib

/-!
Shallow embedding of the documentation-generator scripts of this repository
(src/index.js, src/tests/Test.js, src/unnamed/part_000) and proofs about them.

Strings are JavaScript strings; operations that the scripts use on them
(`split("\n")`, `join("\n")`, `trim()`, `includes`, `startsWith`, `endsWith`,
`slice`) are embedded as executable functions on `String` / `List Char`.
The filesystem is a map from paths to file contents; the generative-AI
backend and `writeFileSync` failures are an environment parameter, so that
the `try/catch` behaviour of the scripts is the total-function behaviour of
the embedding.
-/

/-- JavaScript `haystack.includes(needle)`: substring test. -/
def jsIncludes (s pat : String) : Bool := decide (pat.data <:+: s.data)

/-- JavaScript `s.startsWith(pat)`. -/
def jsStartsWith (s pat : String) : Bool := decide (pat.data <+: s.data)

/-- JavaScript `s.endsWith(pat)`. -/
def jsEndsWith (s pat : String) : Bool := decide (pat.data <:+ s.data)

/-- `s.split("\n")` on the character list: split at every newline character.
JavaScript's split with a one-character separator; the result is always
non-empty and splitting the empty string gives one empty piece. -/
def splitNl : List Char → List (List Char)
  | [] => [[]]
  | c :: cs =>
    if c = '\n' then [] :: splitNl cs
    else
      match splitNl cs with
      | [] => [[c]]
      | l :: ls => (c :: l) :: ls

/-- `lines.join("\n")` on character lists. -/
def joinNl : List (List Char) → List Char
  | [] => []
  | [l] => l
  | l :: l' :: ls => l ++ '\n' :: joinNl (l' :: ls)

/-- `s.split("\n")` at the `String` level. -/
def jsSplitNl (s : String) : List String := (splitNl s.data).map fun l => ⟨l⟩

/-- `lines.join("\n")` at the `String` level. -/
def jsJoinNl (ls : List String) : String := ⟨joinNl (ls.map String.data)⟩

/-- The whitespace characters stripped by JavaScript `trim()` that can occur
here (ASCII whitespace and no-break space). -/
def isJsWhitespace (c : Char) : Bool :=
  c = ' ' || c = '\t' || c = '\n' || c = '\r' ||
  c = '\x0b' || c = '\x0c' || c = ' '

/-- JavaScript `s.trim()`: drop leading and trailing whitespace. -/
def jsTrim (l : List Char) : List Char :=
  ((l.dropWhile isJsWhitespace).reverse.dropWhile isJsWhitespace).reverse

/-- `s.trim()` at the `String` level. -/
def jsTrimStr (s : String) : String := ⟨jsTrim s.data⟩

/-- JavaScript `arr.slice(s, e)` for non-negative indices. -/
def jsSlice (l : List α) (s e : Nat) : List α := (l.take e).drop s

/-- Loading of `.ignoreconfig` (src/index.js lines 13-18): when the file is
absent (`none`) the pattern list stays empty; otherwise split the content
into lines, trim each, and keep the lines that are non-empty (JavaScript
truthiness of a string) and do not start with `#`. -/
def loadIgnorePatterns : Option String → List String
  | none => []
  | some content =>
      ((jsSplitNl content).map jsTrimStr).filter
        fun line => !(line == "") && !(jsStartsWith line "#")

/-- `shouldIgnore` (src/index.js lines 20-22): some pattern is contained in
the path. The pattern list, a module-level variable in the script, is an
explicit argument here. -/
def shouldIgnore (filePath : String) (ignorePatterns : List String) : Bool :=
  ignorePatterns.any fun pattern => jsIncludes filePath pattern

/-- The filesystem: a map from paths to file contents. -/
abbrev Fs := String → Option String

/-- Overwrite one file's content (`fs.writeFileSync`). -/
def Fs.update (fs : Fs) (p content : String) : Fs :=
  fun q => if q = p then some content else fs q

/-- The environment of one run: the generative-AI backend (which may throw)
and whether a given `writeFileSync` call succeeds. -/
structure Env where
  backend : String → Except String String
  writeOk : String → String → Bool

/-- Observable events of one `addDocumentation` call: the single backend
request, the `console.warn` of the Replace policy, and the final
`console.log` / `console.error` lines. -/
inductive Ev where
  | backendRequest (prompt : String)
  | warn
  | success (filePath : String)
  | errlog (filePath : String)
deriving DecidableEq

/-- The prompt built from the file content (identical in all three files). -/
def promptFor (fileContent : String) : String :=
  "Write clear, professional comments for the following code:\n\n" ++ fileContent

namespace IndexJs

/-- The Replace-policy transformation of the backend response
(src/index.js lines 55-65): split into lines; when there are more than two
lines drop the first and the last two (`slice(1, length - 2)`), otherwise
warn and keep the lines; rejoin with newlines. Returns the content to be
written and whether the warning was logged. -/
def replaceTransform (aiGeneratedDocs : String) : String × Bool :=
  let docLines := jsSplitNl aiGeneratedDocs
  if docLines.length > 2 then
    (jsJoinNl (jsSlice docLines 1 (docLines.length - 2)), false)
  else
    (jsJoinNl docLines, true)

/-- `addDocumentation` of src/index.js (lines 47-73). Reading a missing file,
a backend error, or a failed write is the thrown error caught by the
script's `try/catch`: the function still returns, the filesystem is left as
it was at the throw, and the `catch` logs an error event. -/
def addDocumentation (env : Env) (fs : Fs) (filePath : String) : Fs × List Ev :=
  match fs filePath with
  | none => (fs, [Ev.errlog filePath])
  | some fileContent =>
    let prompt := promptFor fileContent
    match env.backend prompt with
    | Except.error _ => (fs, [Ev.backendRequest prompt, Ev.errlog filePath])
    | Except.ok aiGeneratedDocs =>
      let res := replaceTransform aiGeneratedDocs
      let warnEvs := if res.2 then [Ev.warn] else []
      if env.writeOk filePath res.1 then
        (fs.update filePath res.1,
          Ev.backendRequest prompt :: warnEvs ++ [Ev.success filePath])
      else
        (fs, Ev.backendRequest prompt :: warnEvs ++ [Ev.errlog filePath])

/-- Sequential processing of a list of matched files, each through
`addDocumentation`; models the walker dispatching sibling files. -/
def processFiles (env : Env) (fs : Fs) : List String → Fs × List Ev
  | [] => (fs, [])
  | p :: ps =>
    let r1 := addDocumentation env fs p
    let r2 := processFiles env r1.1 ps
    (r2.1, r1.2 ++ r2.2)

end IndexJs

namespace TestJs

/-- `addDocumentation` of src/tests/Test.js (lines 91-103): the Prepend
policy — wrap the response in a block comment and prepend it to the
original content. -/
def addDocumentation (env : Env) (fs : Fs) (filePath : String) : Fs × List Ev :=
  match fs filePath with
  | none => (fs, [Ev.errlog filePath])
  | some fileContent =>
    let prompt := promptFor fileContent
    match env.backend prompt with
    | Except.error _ => (fs, [Ev.backendRequest prompt, Ev.errlog filePath])
    | Except.ok aiGeneratedDocs =>
      let updatedContent := "/*\n" ++ aiGeneratedDocs ++ "\n*/\n\n" ++ fileContent
      if env.writeOk filePath updatedContent then
        (fs.update filePath updatedContent,
          [Ev.backendRequest prompt, Ev.success filePath])
      else
        (fs, [Ev.backendRequest prompt, Ev.errlog filePath])

end TestJs

namespace Part000

/-- `addDocumentation` of src/unnamed/part_000 (lines 48-60): identical
Prepend policy. -/
def addDocumentation (env : Env) (fs : Fs) (filePath : String) : Fs × List Ev :=
  match fs filePath with
  | none => (fs, [Ev.errlog filePath])
  | some fileContent =>
    let prompt := promptFor fileContent
    match env.backend prompt with
    | Except.error _ => (fs, [Ev.backendRequest prompt, Ev.errlog filePath])
    | Except.ok aiGeneratedDocs =>
      let updatedContent := "/*\n" ++ aiGeneratedDocs ++ "\n*/\n\n" ++ fileContent
      if env.writeOk filePath updatedContent then
        (fs.update filePath updatedContent,
          [Ev.backendRequest prompt, Ev.success filePath])
      else
        (fs, [Ev.backendRequest prompt, Ev.errlog filePath])

end Part000

/-- A directory-tree entry, as revealed by `fs.readdir` plus `fs.stat`:
either a regular file or a directory with its own entries. -/
inductive Entry where
  | file (name : String)
  | dir (name : String) (children : List Entry)

/-- The name of an entry inside its directory. -/
def Entry.name : Entry → String
  | .file n => n
  | .dir n _ => n

/-- `path.join(dir, name)` for plain entry names. -/
def pjoin (dir name : String) : String := dir ++ "/" ++ name

/-- Walk environment: which `fs.stat` and `fs.readdir` calls fail. -/
structure WalkEnv where
  statErr : String → Bool
  readdirErr : String → Bool

/-- Observable events of the walk: a dispatch of `addDocumentation`, a
successful `fs.readdir`, or a `console.error` for a failed stat/readdir. -/
inductive WEv where
  | annotate (filePath : String)
  | readdir (dir : String)
  | errlog (p : String)
deriving DecidableEq

/-- The body of the `files.forEach` loop of `processFilesRecursively`
(src/index.js lines 30-44), over the listed entries of `dir`: join the
path, skip it when ignored, log and skip on a stat failure, recurse into
directories (logging instead when their own `fs.readdir` fails), and
dispatch files ending in `.js` or `.ts` to `addDocumentation`. -/
def processEntries (patterns : List String) (env : WalkEnv) :
    String → List Entry → List WEv
  | _, [] => []
  | dir, Entry.file name :: files =>
    (if shouldIgnore (pjoin dir name) patterns then []
     else if env.statErr (pjoin dir name) then [WEv.errlog (pjoin dir name)]
     else if jsEndsWith name ".js" || jsEndsWith name ".ts" then
       [WEv.annotate (pjoin dir name)]
     else []) ++ processEntries patterns env dir files
  | dir, Entry.dir name children :: files =>
    (if shouldIgnore (pjoin dir name) patterns then []
     else if env.statErr (pjoin dir name) then [WEv.errlog (pjoin dir name)]
     else if env.readdirErr (pjoin dir name) then [WEv.errlog (pjoin dir name)]
     else WEv.readdir (pjoin dir name) ::
       processEntries patterns env (pjoin dir name) children)
      ++ processEntries patterns env dir files

/-- `processFilesRecursively` (src/index.js lines 24-45): `fs.readdir` the
directory — logging and aborting this subtree on failure — then run the
loop body over its entries. -/
def processFilesRecursively (patterns : List String) (env : WalkEnv)
    (dir : String) (entries : List Entry) : List WEv :=
  if env.readdirErr dir then [WEv.errlog dir]
  else WEv.readdir dir :: processEntries patterns env dir entries

/-- The paths dispatched to `addDocumentation` during a walk. -/
def annotPaths (evs : List WEv) : List String :=
  evs.filterMap fun e =>
    match e with
    | WEv.annotate p => some p
    | _ => none

/-- The prompts submitted to the backend by one `addDocumentation` call. -/
def backendRequests (evs : List Ev) : List String :=
  evs.filterMap fun e =>
    match e with
    | Ev.backendRequest prompt => some prompt
    | _ => none

/-- An entry name contains no path separator. -/
def noSlash (s : String) : Prop := '/' ∉ s.data

/-- Well-formed directory trees: entry names contain no separator and are
distinct within each directory. -/
inductive WFEntry : Entry → Prop where
  | file : ∀ name, noSlash name → WFEntry (Entry.file name)
  | dir : ∀ name children, noSlash name →
      (∀ e ∈ children, WFEntry e) →
      (children.map Entry.name).Nodup →
      WFEntry (Entry.dir name children)

/-- Following the spec's words for the ignore configuration: the pattern
list "consists of exactly those lines of the file that, after
leading/trailing-whitespace trimming, are non-empty and do not start with
`#`, each included verbatim in its trimmed form". -/
def specIgnorePatternList (content : String) : List String :=
  (jsSplitNl content).filterMap fun raw =>
    let t := jsTrimStr raw
    if t = "" ∨ jsStartsWith t "#" = true then none else some t

/-- Witness fixture: a filesystem holding one file `a.js` with the content
`const a = 1;` used in the spec's examples. -/
def fsConst : Fs := fun p => if p = "a.js" then some "const a = 1;" else none

/-- Witness fixture: a backend that always answers `Adds one.`. -/
def envPrepend : Env := ⟨fun _ => Except.ok "Adds one.", fun _ _ => true⟩

/-- Witness fixture: a backend that answers with exactly two lines. -/
def envTwoLines : Env := ⟨fun _ => Except.ok "line one\nline two", fun _ _ => true⟩

/-- Witness fixture: a backend that answers with exactly five lines. -/
def envFiveLines : Env := ⟨fun _ => Except.ok "L1\nL2\nL3\nL4\nL5", fun _ _ => true⟩

/-- Witness fixture: a backend that answers with exactly three lines. -/
def envThreeLines : Env := ⟨fun _ => Except.ok "A\nB\nC", fun _ _ => true⟩

/-- Witness fixture: a backend that throws on the prompt for the file
content `boom` and otherwise answers with four lines. -/
def envSelective : Env :=
  ⟨fun prompt =>
      if prompt = promptFor "boom" then Except.error "backend down"
      else Except.ok "L1\nL2\nL3\nL4",
    fun _ _ => true⟩

/-- Witness fixture: two sibling files, the first of which makes
`envSelective`'s backend throw. -/
def fsTwo : Fs :=
  fun p =>
    if p = "x.js" then some "boom"
    else if p = "y.js" then some "const b = 2;" else none

/-- Witness fixture: a small directory tree. -/
def entsW : List Entry := [Entry.file "a.js", Entry.dir "d" [Entry.file "b.ts"]]

/-- Witness fixture: a walk with no stat or readdir failures. -/
def envWalkW : WalkEnv := ⟨fun _ => false, fun _ => false⟩

theorem splitNl_ne_nil (l : List Char) : splitNl l ≠ [] := by
  match l with
  | [] => simp [splitNl]
  | c :: cs =>
    simp only [splitNl]
    split
    · simp
    · split <;> simp

theorem joinNl_splitNl (l : List Char) : joinNl (splitNl l) = l := by
  induction l with
  | nil => rfl
  | cons c cs ih =>
    rcases h : splitNl cs with _ | ⟨l1, ls⟩
    · exact absurd h (splitNl_ne_nil cs)
    · rw [h] at ih
      by_cases hc : c = '\n'
      · subst hc
        rw [splitNl, if_pos rfl, h, joinNl]
        simpa using ih
      · rw [splitNl, if_neg hc, h]
        cases ls with
        | nil => rw [joinNl] at ih ⊢; rw [ih]
        | cons l2 ls2 =>
          rw [joinNl] at ih ⊢
          rw [List.cons_append, ih]

theorem jsJoinNl_jsSplitNl (s : String) : jsJoinNl (jsSplitNl s) = s := by
  apply String.ext
  show joinNl (((splitNl s.data).map fun l => (⟨l⟩ : String)).map String.data) = s.data
  rw [List.map_map]
  have h : (String.data ∘ fun l => (⟨l⟩ : String)) = id := rfl
  rw [h, List.map_id, joinNl_splitNl]

theorem Fs.update_self (fs : Fs) (p c : String) : fs.update p c p = some c := by
  simp [Fs.update]

theorem Fs.update_other (fs : Fs) (p c q : String) (h : q ≠ p) :
    fs.update p c q = fs q := by
  simp [Fs.update, h]

theorem IndexJs.addDocumentation_backendErr (env : Env) (fs : Fs)
    (filePath C e : String) (hread : fs filePath = some C)
    (hback : env.backend (promptFor C) = Except.error e) :
    IndexJs.addDocumentation env fs filePath =
      (fs, [Ev.backendRequest (promptFor C), Ev.errlog filePath]) := by
  unfold IndexJs.addDocumentation
  rw [hread]
  simp only [hback]

theorem IndexJs.addDocumentation_replace_ok (env : Env) (fs : Fs)
    (filePath C R : String) (hread : fs filePath = some C)
    (hback : env.backend (promptFor C) = Except.ok R)
    (hwrite : env.writeOk filePath (IndexJs.replaceTransform R).1 = true) :
    IndexJs.addDocumentation env fs filePath =
      (fs.update filePath (IndexJs.replaceTransform R).1,
        Ev.backendRequest (promptFor C) ::
          (if (IndexJs.replaceTransform R).2 then [Ev.warn] else []) ++
            [Ev.success filePath]) := by
  unfold IndexJs.addDocumentation
  rw [hread]
  simp only [hback, hwrite, if_true]

theorem TestJs.addDocumentation_prepend_ok (env : Env) (fs : Fs)
    (filePath C R : String) (hread : fs filePath = some C)
    (hback : env.backend (promptFor C) = Except.ok R)
    (hwrite : env.writeOk filePath ("/*\n" ++ R ++ "\n*/\n\n" ++ C) = true) :
    TestJs.addDocumentation env fs filePath =
      (fs.update filePath ("/*\n" ++ R ++ "\n*/\n\n" ++ C),
        [Ev.backendRequest (promptFor C), Ev.success filePath]) := by
  unfold TestJs.addDocumentation
  rw [hread]
  simp only [hback, hwrite, if_true]

theorem IndexJs.replaceTransform_of_long (R : String)
    (h : 2 < (jsSplitNl R).length) :
    IndexJs.replaceTransform R =
      (jsJoinNl (jsSlice (jsSplitNl R) 1 ((jsSplitNl R).length - 2)), false) := by
  unfold IndexJs.replaceTransform
  rw [if_pos h]

theorem IndexJs.replaceTransform_of_short (R : String)
    (h : ¬ 2 < (jsSplitNl R).length) :
    IndexJs.replaceTransform R = (R, true) := by
  unfold IndexJs.replaceTransform
  rw [if_neg h, jsJoinNl_jsSplitNl]

theorem jsSlice_one_sub_two (l : List α) (h : 2 < l.length) :
    jsSlice l 1 (l.length - 2) = (l.drop 1).dropLast.dropLast := by
  unfold jsSlice
  simp only [List.dropLast_eq_take, List.length_take, List.length_drop,
    List.take_take, List.drop_take]
  congr 1
  omega

/-- C3: `shouldIgnore(P, S)` is true iff at least one pattern in `S` is a
substring of `P`; in particular it is false for every `P` when `S` is
empty. -/
theorem C3_shouldIgnore_iff (P : String) (S : List String) :
    (shouldIgnore P S = true ↔ ∃ pat ∈ S, pat.data <:+: P.data) ∧
    shouldIgnore P [] = false := by
  constructor
  · simp only [shouldIgnore, jsIncludes, List.any_eq_true, decide_eq_true_eq]
  · rfl

/-- C6: loading the ignore configuration yields the empty pattern list when
the file is absent; when it exists, the pattern list is exactly the file's
lines that, once trimmed, are non-empty and do not start with `#`, each in
trimmed form. -/
theorem C6_loadIgnorePatterns_spec :
    loadIgnorePatterns none = [] ∧
    ∀ content : String,
      loadIgnorePatterns (some content) = specIgnorePatternList content := by
  refine ⟨rfl, fun content => ?_⟩
  show ((jsSplitNl content).map jsTrimStr).filter
        (fun line => !(line == "") && !(jsStartsWith line "#")) =
      ((jsSplitNl content).filterMap fun raw =>
        let t := jsTrimStr raw
        if t = "" ∨ jsStartsWith t "#" = true then none else some t)
  generalize jsSplitNl content = ls
  induction ls with
  | nil => rfl
  | cons raw rest ih =>
    rw [List.map_cons, List.filter_cons, List.filterMap_cons]
    by_cases h1 : jsTrimStr raw = ""
    · simp [h1, ih]
    · by_cases h2 : jsStartsWith (jsTrimStr raw) "#" = true
      · simp [h1, h2, ih]
      · simp [h1, h2, ih]

/-- C9: the `addDocumentation` of src/tests/Test.js and the one of
src/unnamed/part_000 are behaviourally equal: on every environment,
filesystem and path they return the same filesystem and events. -/
theorem C9_testJs_part000_equal :
    ∀ (env : Env) (fs : Fs) (filePath : String),
      TestJs.addDocumentation env fs filePath =
        Part000.addDocumentation env fs filePath := by
  intro env fs filePath
  rfl

/-- C2: the Prepend-policy `addDocumentation` writes back exactly
`"/*\n" ++ R ++ "\n*/\n\n" ++ C`, and the original content `C` is a suffix
of the written string. -/
theorem C2_prepend_writes_wrapped (env : Env) (fs : Fs) (filePath C R : String)
    (hread : fs filePath = some C)
    (hback : env.backend (promptFor C) = Except.ok R)
    (hwrite : env.writeOk filePath ("/*\n" ++ R ++ "\n*/\n\n" ++ C) = true) :
    (TestJs.addDocumentation env fs filePath).1 filePath =
      some ("/*\n" ++ R ++ "\n*/\n\n" ++ C) ∧
    C.data <:+ ("/*\n" ++ R ++ "\n*/\n\n" ++ C).data := by
  constructor
  · rw [TestJs.addDocumentation_prepend_ok env fs filePath C R hread hback hwrite]
    exact Fs.update_self ..
  · rw [String.data_append]
    exact List.suffix_append _ _

/-- Witness for C2 at the spec's example: content `const a = 1;`, response
`Adds one.`. -/
theorem C2_witness :
    fsConst "a.js" = some "const a = 1;" ∧
    (TestJs.addDocumentation envPrepend fsConst "a.js").1 "a.js" =
      some "/*\nAdds one.\n*/\n\nconst a = 1;" := by
  refine ⟨by decide, ?_⟩
  have h := C2_prepend_writes_wrapped envPrepend fsConst "a.js" "const a = 1;"
    "Adds one." (by decide) rfl rfl
  rw [h.1]
  decide

/-- C1: with a backend response of strictly more than two lines, the
Replace-policy `addDocumentation` of src/index.js overwrites the file's
entire content with the response minus its first line and last two lines,
joined by newlines — a value depending only on the response, so the
original content is discarded — and logs no warning. -/
theorem C1_replace_overwrites_with_trimmed_response
    (env : Env) (fs : Fs) (filePath C R : String)
    (hread : fs filePath = some C)
    (hback : env.backend (promptFor C) = Except.ok R)
    (hlen : 2 < (jsSplitNl R).length)
    (hwrite : env.writeOk filePath (IndexJs.replaceTransform R).1 = true) :
    (IndexJs.addDocumentation env fs filePath).1 filePath =
      some (jsJoinNl (((jsSplitNl R).drop 1).dropLast.dropLast)) ∧
    Ev.warn ∉ (IndexJs.addDocumentation env fs filePath).2 := by
  rw [IndexJs.addDocumentation_replace_ok env fs filePath C R hread hback hwrite,
    IndexJs.replaceTransform_of_long R hlen]
  refine ⟨?_, ?_⟩
  · rw [jsSlice_one_sub_two _ hlen]
    exact Fs.update_self ..
  · simp

/-- Witness for C1: a five-line response trims to lines 2 and 3. -/
theorem C1_witness :
    fsConst "a.js" = some "const a = 1;" ∧
    2 < (jsSplitNl "L1\nL2\nL3\nL4\nL5").length ∧
    (IndexJs.addDocumentation envFiveLines fsConst "a.js").1 "a.js" =
      some "L2\nL3" := by
  refine ⟨by decide, by decide, ?_⟩
  have h := C1_replace_overwrites_with_trimmed_response envFiveLines fsConst
    "a.js" "const a = 1;" "L1\nL2\nL3\nL4\nL5" (by decide) rfl (by decide)
    (by decide)
  rw [h.1]
  decide

/-- C10: with a backend response of exactly three lines, the Replace-policy
`addDocumentation` of src/index.js writes the empty string — the slice from
index 1 to length minus 2 is empty — erasing the file without warning. -/
theorem C10_replace_three_lines_erases
    (env : Env) (fs : Fs) (filePath C R : String)
    (hread : fs filePath = some C)
    (hback : env.backend (promptFor C) = Except.ok R)
    (hlen : (jsSplitNl R).length = 3)
    (hwrite : env.writeOk filePath (IndexJs.replaceTransform R).1 = true) :
    (IndexJs.addDocumentation env fs filePath).1 filePath = some "" ∧
    Ev.warn ∉ (IndexJs.addDocumentation env fs filePath).2 := by
  have h3 : 2 < (jsSplitNl R).length := by omega
  have hslice : jsSlice (jsSplitNl R) 1 ((jsSplitNl R).length - 2) = [] := by
    unfold jsSlice
    apply List.drop_eq_nil_of_le
    rw [List.length_take]
    omega
  rw [IndexJs.addDocumentation_replace_ok env fs filePath C R hread hback hwrite,
    IndexJs.replaceTransform_of_long R h3, hslice]
  refine ⟨?_, by simp⟩
  have hempty : jsJoinNl ([] : List String) = "" := rfl
  rw [hempty]
  exact Fs.update_self ..

/-- Witness for C10: a three-line response erases the file. -/
theorem C10_witness :
    (jsSplitNl "A\nB\nC").length = 3 ∧
    (IndexJs.addDocumentation envThreeLines fsConst "a.js").1 "a.js" =
      some "" := by
  refine ⟨by decide, ?_⟩
  exact (C10_replace_three_lines_erases envThreeLines fsConst "a.js"
    "const a = 1;" "A\nB\nC" (by decide) rfl (by decide) (by decide)).1

/-- Counterexample to C5: with the two-line response `line one\nline two`
the Replace-policy `addDocumentation` of src/index.js does not leave the
file's content `const a = 1;` unchanged — it overwrites it with the full
response. -/
theorem C5_counterexample :
    (jsSplitNl "line one\nline two").length = 2 ∧
    (IndexJs.addDocumentation envTwoLines fsConst "a.js").1 "a.js" =
      some "line one\nline two" ∧
    (IndexJs.addDocumentation envTwoLines fsConst "a.js").1 "a.js" ≠
      some "const a = 1;" := by
  decide

/-- C5 as amended: with a backend response of two or fewer lines the
Replace-policy `addDocumentation` logs the warning and overwrites the file
with the full response text unchanged (the unmodified line set rejoined
reproduces the response verbatim). -/
theorem C5_short_response_warns_and_writes_response
    (env : Env) (fs : Fs) (filePath C R : String)
    (hread : fs filePath = some C)
    (hback : env.backend (promptFor C) = Except.ok R)
    (hlen : (jsSplitNl R).length ≤ 2)
    (hwrite : env.writeOk filePath R = true) :
    (IndexJs.addDocumentation env fs filePath).1 filePath = some R ∧
    Ev.warn ∈ (IndexJs.addDocumentation env fs filePath).2 := by
  have hs : IndexJs.replaceTransform R = (R, true) :=
    IndexJs.replaceTransform_of_short R (by omega)
  have hw : env.writeOk filePath (IndexJs.replaceTransform R).1 = true := by
    rw [hs]; exact hwrite
  rw [IndexJs.addDocumentation_replace_ok env fs filePath C R hread hback hw, hs]
  exact ⟨Fs.update_self .., by simp⟩

/-- Witness for the amended C5 at the two-line response. -/
theorem C5_witness :
    (jsSplitNl "line one\nline two").length ≤ 2 ∧
    (IndexJs.addDocumentation envTwoLines fsConst "a.js").1 "a.js" =
      some "line one\nline two" ∧
    Ev.warn ∈ (IndexJs.addDocumentation envTwoLines fsConst "a.js").2 := by
  refine ⟨by decide, ?_⟩
  exact (C5_short_response_warns_and_writes_response envTwoLines fsConst
    "a.js" "const a = 1;" "line one\nline two" (by decide) rfl (by decide)
    rfl).imp id id

/-- C7: a failure inside one file's `addDocumentation` is caught: the run
continues, the failing file is logged and left unchanged, and a sibling
file in the same directory is still processed and rewritten. -/
theorem C7_sibling_unaffected (env : Env) (fs : Fs) (f1 f2 Ca Cb R e : String)
    (hne : f1 ≠ f2)
    (hr1 : fs f1 = some Ca) (hr2 : fs f2 = some Cb)
    (hb1 : env.backend (promptFor Ca) = Except.error e)
    (hb2 : env.backend (promptFor Cb) = Except.ok R)
    (hw2 : env.writeOk f2 (IndexJs.replaceTransform R).1 = true) :
    (IndexJs.processFiles env fs [f1, f2]).1 f1 = some Ca ∧
    (IndexJs.processFiles env fs [f1, f2]).1 f2 =
      some (IndexJs.replaceTransform R).1 ∧
    Ev.errlog f1 ∈ (IndexJs.processFiles env fs [f1, f2]).2 ∧
    Ev.success f2 ∈ (IndexJs.processFiles env fs [f1, f2]).2 := by
  have e1 := IndexJs.addDocumentation_backendErr env fs f1 Ca e hr1 hb1
  have e2 := IndexJs.addDocumentation_replace_ok env fs f2 Cb R hr2 hb2 hw2
  refine ⟨?_, ?_, ?_, ?_⟩ <;> simp only [IndexJs.processFiles, e1, e2]
  · rw [Fs.update_other _ _ _ _ hne]
    exact hr1
  · exact Fs.update_self ..
  · simp
  · simp

/-- Witness for C7: the backend throws for `x.js` but its sibling `y.js`
is still rewritten. -/
theorem C7_witness :
    fsTwo "x.js" = some "boom" ∧
    envSelective.backend (promptFor "boom") = Except.error "backend down" ∧
    (IndexJs.processFiles envSelective fsTwo ["x.js", "y.js"]).1 "x.js" =
      some "boom" ∧
    (IndexJs.processFiles envSelective fsTwo ["x.js", "y.js"]).1 "y.js" =
      some (IndexJs.replaceTransform "L1\nL2\nL3\nL4").1 ∧
    Ev.success "y.js" ∈
      (IndexJs.processFiles envSelective fsTwo ["x.js", "y.js"]).2 := by
  have h := C7_sibling_unaffected envSelective fsTwo "x.js" "y.js" "boom"
    "const b = 2;" "L1\nL2\nL3\nL4" "backend down" (by decide) (by decide)
    (by decide) rfl rfl rfl
  exact ⟨by decide, rfl, h.1, h.2.1, h.2.2.2⟩

theorem annotate_mem_processEntries (patterns : List String) (env : WalkEnv) :
    ∀ (dir : String) (es : List Entry) (p : String),
      WEv.annotate p ∈ processEntries patterns env dir es →
      shouldIgnore p patterns = false ∧
      ∃ d n, p = pjoin d n ∧
        (jsEndsWith n ".js" = true ∨ jsEndsWith n ".ts" = true) := by
  intro dir es
  induction dir, es using processEntries.induct patterns env with
  | case1 dir =>
    intro p hp
    simp [processEntries] at hp
  | case2 dir name files ih =>
    intro p hp
    rw [processEntries] at hp
    rcases List.mem_append.mp hp with h | h
    · split at h
      next hig => simp at h
      next hig =>
        split at h
        next hst => simp at h
        next hst =>
          split at h
          next hex =>
            simp only [List.mem_singleton] at h
            injection h with h
            subst h
            refine ⟨by simpa [Bool.not_eq_true] using hig, dir, name, rfl, ?_⟩
            simpa [Bool.or_eq_true] using hex
          next hex => simp at h
    · exact ih p h
  | case3 dir name children files ih1 ih2 =>
    intro p hp
    rw [processEntries] at hp
    rcases List.mem_append.mp hp with h | h
    · split at h
      next hig => simp at h
      next hig =>
        split at h
        next hst => simp at h
        next hst =>
          split at h
          next hrd => simp at h
          next hrd =>
            simp only [List.mem_cons] at h
            rcases h with h | h
            · exact absurd h (by simp)
            · exact ih1 p h
    · exact ih2 p h

theorem readdir_mem_processEntries (patterns : List String) (env : WalkEnv) :
    ∀ (dir : String) (es : List Entry) (d : String),
      WEv.readdir d ∈ processEntries patterns env dir es →
      shouldIgnore d patterns = false := by
  intro dir es
  induction dir, es using processEntries.induct patterns env with
  | case1 dir =>
    intro d hd
    simp [processEntries] at hd
  | case2 dir name files ih =>
    intro d hd
    rw [processEntries] at hd
    rcases List.mem_append.mp hd with h | h
    · split at h
      next => simp at h
      next =>
        split at h
        next => simp at h
        next =>
          split at h
          next => simp at h
          next => simp at h
    · exact ih d h
  | case3 dir name children files ih1 ih2 =>
    intro d hd
    rw [processEntries] at hd
    rcases List.mem_append.mp hd with h | h
    · split at h
      next hig => simp at h
      next hig =>
        split at h
        next hst => simp at h
        next hst =>
          split at h
          next hrd => simp at h
          next hrd =>
            simp only [List.mem_cons] at h
            rcases h with h | h
            · injection h with h
              subst h
              simpa [Bool.not_eq_true] using hig
            · exact ih1 d h
    · exact ih2 d h

/-- C4: the walker never dispatches `addDocumentation` on a path flagged by
`shouldIgnore`, nor on a file whose name does not end in `.js` or `.ts`;
and every directory it reads — other than the root it was started on — is
itself not ignored, i.e. ignored directories are never recursed into. -/
theorem C4_walker_filter (patterns : List String) (env : WalkEnv)
    (root : String) (entries : List Entry) :
    (∀ p, WEv.annotate p ∈ processFilesRecursively patterns env root entries →
      shouldIgnore p patterns = false ∧
      ∃ d n, p = pjoin d n ∧
        (jsEndsWith n ".js" = true ∨ jsEndsWith n ".ts" = true)) ∧
    (∀ d, WEv.readdir d ∈ processFilesRecursively patterns env root entries →
      d = root ∨ shouldIgnore d patterns = false) := by
  unfold processFilesRecursively
  constructor
  · intro p hp
    split at hp
    · simp at hp
    · simp only [List.mem_cons] at hp
      rcases hp with h | h
      · exact absurd h (by simp)
      · exact annotate_mem_processEntries patterns env root entries p h
  · intro d hd
    split at hd
    · simp at hd
    · simp only [List.mem_cons] at hd
      rcases hd with h | h
      · injection h with h
        exact Or.inl h
      · exact Or.inr (readdir_mem_processEntries patterns env root entries d h)

/-- Witness for C4: in a concrete walk an `addDocumentation` dispatch
occurs, and the theorem yields its non-ignored, suffix-matching shape. -/
theorem C4_witness :
    (WEv.annotate (pjoin "r" "a.js") ∈
      processFilesRecursively ["skip"] envWalkW "r" entsW) ∧
    shouldIgnore (pjoin "r" "a.js") ["skip"] = false ∧
    (∃ d n, pjoin "r" "a.js" = pjoin d n ∧
      (jsEndsWith n ".js" = true ∨ jsEndsWith n ".ts" = true)) := by
  have hmem : WEv.annotate (pjoin "r" "a.js") ∈
      processFilesRecursively ["skip"] envWalkW "r" entsW := by
    simp only [processFilesRecursively, processEntries, entsW, envWalkW, pjoin,
      shouldIgnore, jsIncludes, jsEndsWith]
    decide
  have h := (C4_walker_filter ["skip"] envWalkW "r" entsW).1 _ hmem
  exact ⟨hmem, h.1, h.2⟩

theorem append_seg_inj :
    ∀ (n1 n2 r1 r2 : List Char), '/' ∉ n1 → '/' ∉ n2 →
      (r1 = [] ∨ ∃ t, r1 = '/' :: t) → (r2 = [] ∨ ∃ t, r2 = '/' :: t) →
      n1 ++ r1 = n2 ++ r2 → n1 = n2 := by
  intro n1
  induction n1 with
  | nil =>
    intro n2 r1 r2 h1 h2 s1 s2 heq
    cases n2 with
    | nil => rfl
    | cons b n2' =>
      exfalso
      simp only [List.nil_append] at heq
      rcases s1 with rfl | ⟨t, rfl⟩
      · exact List.cons_ne_nil _ _ heq.symm
      · injection heq with hb _
        exact h2 (hb ▸ List.mem_cons_self _ _)
  | cons a n1' ih =>
    intro n2 r1 r2 h1 h2 s1 s2 heq
    cases n2 with
    | nil =>
      exfalso
      simp only [List.nil_append] at heq
      rcases s2 with rfl | ⟨t, rfl⟩
      · exact List.cons_ne_nil _ _ heq
      · injection heq with hb _
        exact h1 (hb ▸ List.mem_cons_self _ _)
    | cons b n2' =>
      simp only [List.cons_append] at heq
      injection heq with hab htail
      subst hab
      have hn := ih n2' r1 r2 (fun hm => h1 (List.mem_cons_of_mem _ hm))
        (fun hm => h2 (List.mem_cons_of_mem _ hm)) s1 s2 htail
      rw [hn]

theorem pjoin_data (d n : String) :
    (pjoin d n).data = d.data ++ '/' :: n.data := by
  show ((d ++ "/") ++ n).data = _
  rw [String.data_append, String.data_append, List.append_assoc]
  rfl

theorem annotPaths_append (a b : List WEv) :
    annotPaths (a ++ b) = annotPaths a ++ annotPaths b :=
  List.filterMap_append a b _

theorem WFEntry.name_noSlash {e : Entry} (h : WFEntry e) :
    noSlash (Entry.name e) := by
  cases h with
  | file name hns => exact hns
  | dir name children hns _ _ => exact hns

theorem processEntries_cons (patterns : List String) (env : WalkEnv)
    (dir : String) (e : Entry) (es : List Entry) :
    processEntries patterns env dir (e :: es) =
      processEntries patterns env dir [e] ++ processEntries patterns env dir es := by
  cases e with
  | file name =>
    simp only [processEntries, List.append_nil, List.append_assoc]
  | dir name children =>
    simp only [processEntries, List.append_nil, List.append_assoc]

theorem annotPaths_shape (patterns : List String) (env : WalkEnv) :
    ∀ (dir : String) (es : List Entry) (p : String),
      p ∈ annotPaths (processEntries patterns env dir es) →
      ∃ e ∈ es, ∃ r : List Char,
        p.data = dir.data ++ '/' :: ((Entry.name e).data ++ r) ∧
        (r = [] ∨ ∃ t, r = '/' :: t) := by
  intro dir es
  induction dir, es using processEntries.induct patterns env with
  | case1 dir =>
    intro p hp
    simp [processEntries, annotPaths] at hp
  | case2 dir name files ih =>
    intro p hp
    rw [processEntries, annotPaths_append] at hp
    rcases List.mem_append.mp hp with h | h
    · split at h
      next => simp [annotPaths] at h
      next =>
        split at h
        next => simp [annotPaths] at h
        next =>
          split at h
          next =>
            simp only [annotPaths, List.filterMap_cons, List.filterMap_nil] at h
            simp only [List.mem_singleton] at h
            subst h
            refine ⟨Entry.file name, List.mem_cons_self _ _, [], ?_, Or.inl rfl⟩
            rw [pjoin_data, List.append_nil]
            rfl
          next => simp [annotPaths] at h
    · rcases ih p h with ⟨e, he, r, hr⟩
      exact ⟨e, List.mem_cons_of_mem _ he, r, hr⟩
  | case3 dir name children files ih1 ih2 =>
    intro p hp
    rw [processEntries, annotPaths_append] at hp
    rcases List.mem_append.mp hp with h | h
    · split at h
      next => simp [annotPaths] at h
      next =>
        split at h
        next => simp [annotPaths] at h
        next =>
          split at h
          next => simp [annotPaths] at h
          next =>
            have h' : p ∈ annotPaths (processEntries patterns env (pjoin dir name) children) := h
            rcases ih1 p h' with ⟨e', _, r', hr', hs'⟩
            refine ⟨Entry.dir name children, List.mem_cons_self _ _,
              '/' :: ((Entry.name e').data ++ r'), ?_, Or.inr ⟨_, rfl⟩⟩
            rw [hr', pjoin_data, List.append_assoc]
            rfl
    · rcases ih2 p h with ⟨e, he, r, hr⟩
      exact ⟨e, List.mem_cons_of_mem _ he, r, hr⟩

theorem nodup_annotPaths_aux (patterns : List String) (env : WalkEnv) :
    ∀ (es : List Entry),
      (∀ e ∈ es, WFEntry e) →
      (∀ e ∈ es, ∀ dir, (annotPaths (processEntries patterns env dir [e])).Nodup) →
      (es.map Entry.name).Nodup →
      ∀ dir, (annotPaths (processEntries patterns env dir es)).Nodup := by
  intro es
  induction es with
  | nil =>
    intro _ _ _ dir
    simp [processEntries, annotPaths]
  | cons e0 rest ih =>
    intro hwf hIH hnames dir
    have hnames' : (Entry.name e0 :: rest.map Entry.name).Nodup := by
      simpa using hnames
    rw [processEntries_cons, annotPaths_append, List.nodup_append]
    refine ⟨hIH e0 (List.mem_cons_self _ _) dir, ?_, ?_⟩
    · exact ih (fun e he => hwf e (List.mem_cons_of_mem _ he))
        (fun e he => hIH e (List.mem_cons_of_mem _ he))
        (List.nodup_cons.mp hnames').2 dir
    · refine List.disjoint_left.mpr ?_
      intro p hp0 hpr
      rcases annotPaths_shape patterns env dir [e0] p hp0 with ⟨e, he, r1, hr1, hs1⟩
      simp only [List.mem_singleton] at he
      rw [he] at hr1
      rcases annotPaths_shape patterns env dir rest p hpr with ⟨e', he', r2, hr2, hs2⟩
      have hcancel : (Entry.name e0).data ++ r1 = (Entry.name e').data ++ r2 := by
        have hdd := hr1.symm.trans hr2
        have h2 := List.append_cancel_left hdd
        exact List.cons.inj h2 |>.2
      have hname : Entry.name e0 = Entry.name e' := by
        apply String.ext
        exact append_seg_inj _ _ r1 r2
          (WFEntry.name_noSlash (hwf e0 (List.mem_cons_self _ _)))
          (WFEntry.name_noSlash (hwf e' (List.mem_cons_of_mem _ he'))) hs1 hs2 hcancel
      exact (List.nodup_cons.mp hnames').1 (hname ▸ List.mem_map_of_mem _ he')

theorem nodup_annotPaths_entry (patterns : List String) (env : WalkEnv) :
    ∀ (e : Entry), WFEntry e →
      ∀ dir, (annotPaths (processEntries patterns env dir [e])).Nodup := by
  intro e hwf
  induction hwf with
  | file name hns =>
    intro dir
    simp only [processEntries, List.append_nil]
    split
    next => simp [annotPaths]
    next =>
      split
      next => simp [annotPaths]
      next =>
        split
        next => simp [annotPaths]
        next => simp [annotPaths]
  | dir name children hns hall hnames ih =>
    intro dir
    simp only [processEntries, List.append_nil]
    split
    next => simp [annotPaths]
    next =>
      split
      next => simp [annotPaths]
      next =>
        split
        next => simp [annotPaths]
        next =>
          have hskip : annotPaths (WEv.readdir (pjoin dir name) ::
              processEntries patterns env (pjoin dir name) children) =
              annotPaths (processEntries patterns env (pjoin dir name) children) := rfl
          rw [hskip]
          exact nodup_annotPaths_aux patterns env children hall ih hnames _

theorem IndexJs.addDocumentation_one_request (env : Env) (fs : Fs) (p : String) :
    (backendRequests (IndexJs.addDocumentation env fs p).2).length ≤ 1 := by
  unfold IndexJs.addDocumentation
  rcases h1 : fs p with _ | C
  · simp [backendRequests]
  · rcases h2 : env.backend (promptFor C) with e | R
    · simp [h2, backendRequests]
    · simp only [h2]
      by_cases h3 : env.writeOk p (IndexJs.replaceTransform R).1 = true
      · simp only [h3, if_true]
        by_cases h4 : (IndexJs.replaceTransform R).2 = true <;>
          simp [h4, backendRequests]
      · simp only [Bool.not_eq_true] at h3
        simp only [h3, Bool.false_eq_true, if_false]
        by_cases h4 : (IndexJs.replaceTransform R).2 = true <;>
          simp [h4, backendRequests]

/-- C8: in one run over a well-formed finite tree (distinct, separator-free
entry names per directory) no file path is dispatched twice — the list of
dispatched paths has no duplicates — and one `addDocumentation` invocation
submits at most one backend request (exactly one once the read succeeds). -/
theorem C8_each_path_submitted_once (patterns : List String) (env : WalkEnv)
    (root : String) (entries : List Entry)
    (hwf : ∀ e ∈ entries, WFEntry e)
    (hnames : (entries.map Entry.name).Nodup) :
    (annotPaths (processFilesRecursively patterns env root entries)).Nodup ∧
    ∀ (env2 : Env) (fs : Fs) (p : String),
      (backendRequests (IndexJs.addDocumentation env2 fs p).2).length ≤ 1 := by
  constructor
  · unfold processFilesRecursively
    split
    · simp [annotPaths]
    · have hskip : annotPaths (WEv.readdir root ::
          processEntries patterns env root entries) =
          annotPaths (processEntries patterns env root entries) := rfl
      rw [hskip]
      exact nodup_annotPaths_aux patterns env entries hwf
        (fun e he => nodup_annotPaths_entry patterns env e (hwf e he)) hnames root
  · intro env2 fs p
    exact IndexJs.addDocumentation_one_request env2 fs p

/-- Witness for C8 on a concrete well-formed tree. -/
theorem C8_witness :
    (∀ e ∈ entsW, WFEntry e) ∧
    (entsW.map Entry.name).Nodup ∧
    (annotPaths (processFilesRecursively ["skip"] envWalkW "r" entsW)).Nodup ∧
    (backendRequests (IndexJs.addDocumentation envPrepend fsConst "a.js").2).length ≤ 1 := by
  have hwf : ∀ e ∈ entsW, WFEntry e := by
    intro e he
    simp only [entsW, List.mem_cons, List.not_mem_nil, or_false] at he
    rcases he with rfl | rfl
    · exact WFEntry.file _ (by unfold noSlash; decide)
    · refine WFEntry.dir _ _ (by unfold noSlash; decide) ?_ (by decide)
      intro e' he'
      simp only [List.mem_singleton] at he'
      subst he'
      exact WFEntry.file _ (by unfold noSlash; decide)
  have hnames : (entsW.map Entry.name).Nodup := by decide
  have h := C8_each_path_submitted_once ["skip"] envWalkW "r" entsW hwf hnames
  exact ⟨hwf, hnames, h.1, h.2 envPrepend fsConst "a.js"⟩
